import Mathlib

/-!
Verification development for the eos-bp-performance ingestion and aggregation
engine.  The definitions below are a shallow embedding of the Python sources:
`bp_performance/models.py` (the authoritative `Stats`, `BpData`,
`BlockSummary`, schedule arithmetic, retry decorator and `Database`
aggregator) and the parallel `bp_performance/models/stats.py` module.
Python ints are embedded as `ℤ`/`ℕ`, Python numbers fed to the statistics
engine as `ℚ`, and fallible Python code as `Except`/`Option` values whose
`error`/`none` outcomes stand for raised exceptions and `None` returns.
-/

namespace BPPerf

/-- Truncation toward zero, the behaviour of Python `int()` on a number. -/
def pyInt (q : ℚ) : ℤ := if q < 0 then ⌈q⌉ else ⌊q⌋

/-- Mantissas of the Renard R20 preferred-number series, scaled by 100 so that
every series value in the decades used here is an integer.  The third-party
`renard` library ships these constants. -/
def r20Mantissas : List ℕ :=
  [100, 112, 125, 140, 160, 180, 200, 224, 250, 280,
   315, 355, 400, 450, 500, 560, 630, 710, 800, 900]

/-- Mantissas of the Renard R10 preferred-number series, scaled by 100. -/
def r10Mantissas : List ℕ :=
  [100, 125, 160, 200, 250, 315, 400, 500, 630, 800]

/-- Model of `renard.rrange(series, lo, hi)` from the third-party `renard`
library: all series values in `[lo, hi]`, ascending.  Five decades suffice for
the two call sites in this repository. -/
def rrange (mantissas : List ℕ) (lo hi : ℕ) : List ℕ :=
  (((List.range 5).map (fun d => mantissas.map (fun m => m * 10 ^ d))).flatten).filter
    (fun v => decide (lo ≤ v ∧ v ≤ hi))

/-- Bucket boundaries of `models.py`:
`_timing_buckets = list(renard.rrange(renard.R20, 100, 500000))`. -/
def _timing_buckets : List ℕ := rrange r20Mantissas 100 500000

/-- Bucket boundaries of `models/stats.py`:
`timing_buckets = list(renard.rrange(renard.R10, 100, 1000000))`. -/
def timing_buckets : List ℕ := rrange r10Mantissas 100 1000000

/-- The `Stats` object of `models.py`: cumulative bucket counts plus scalar
accumulators.  (`models/stats.py` declares a field-for-field identical class,
differing only in the bucket sequence used; see `StatsPyInit`.) -/
structure Stats where
  measurements : List ℤ
  count : ℤ
  sum : ℚ
  sum_sq : ℚ
deriving DecidableEq

/-- The `Stats.__init__` of `models.py`: a zero measurement per bucket of
`_timing_buckets`, zero scalar accumulators. -/
def freshStats : Stats :=
  { measurements := List.replicate _timing_buckets.length 0
    count := 0
    sum := 0
    sum_sq := 0 }

/-- The `Stats.__init__` of `models/stats.py`: identical except that the
measurements list is sized from that module own `timing_buckets`. -/
def StatsPyInit : Stats :=
  { measurements := List.replicate timing_buckets.length 0
    count := 0
    sum := 0
    sum_sq := 0 }

/-- The loop of `Stats.observe`, acting on the reversed list of
(bucket, measurement) pairs: walking buckets from the top down, increment the
measurement while `x < bucket`, and break at the first bucket not above `x`. -/
def bumpRev (x : ℚ) : List (ℕ × ℤ) → List (ℕ × ℤ)
  | [] => []
  | (b, m) :: rest =>
    if x < (b : ℚ) then (b, m + 1) :: bumpRev x rest else (b, m) :: rest

/-- Model of `Stats.observe` from `models.py` lines 31-41. -/
def Stats.observe (s : Stats) (x : ℚ) : Stats :=
  { measurements :=
      ((bumpRev x ((_timing_buckets.zip s.measurements).reverse)).reverse).map Prod.snd
    count := s.count + 1
    sum := s.sum + x
    sum_sq := s.sum_sq + x * x }

/-- Exceptions a modelled Python computation can raise. -/
inductive PyExn
  | zeroDivisionError
  | valueError
  | typeError
deriving DecidableEq

/-- Result of a Python floating-point computation: the float `nan`, or the
(exact) square root of a nonnegative rational radicand, or a plain value.
`sqrtVal r` denotes the float `math.sqrt(r)`; keeping the radicand symbolic
keeps the embedding executable. -/
inductive PyFloat
  | nan
  | sqrtVal (radicand : ℚ)
deriving DecidableEq

/-- Model of the `Stats.mean` property, `models.py` lines 43-45: the bare
division `self.sum / self.count`, which raises `ZeroDivisionError` when
`count = 0`. -/
def Stats.mean (s : Stats) : Except PyExn ℚ :=
  if s.count = 0 then .error .zeroDivisionError else .ok (s.sum / s.count)

/-- Model of the `Stats.stddev` property, `models.py` lines 47-54: `nan` when
`count = 0`, otherwise `math.sqrt(sum_sq/count - (sum/count)**2)`, which
raises `ValueError` when the radicand is negative (no clamping is done). -/
def Stats.stddev (s : Stats) : Except PyExn PyFloat :=
  if s.count = 0 then .ok .nan
  else
    let r := s.sum_sq / s.count - (s.sum / s.count) ^ 2
    if r < 0 then .error .valueError else .ok (.sqrtVal r)

/-- The loop of `Stats.quantile`, over the (bucket, measurement) pairs with
the previously visited pair at hand; the for-else branch returns
`_timing_buckets[-1]` and the `i == 0` branch returns `_timing_buckets[0]`. -/
def quantileAux (q c : ℚ) : List (ℕ × ℤ) → Option (ℕ × ℤ) → ℚ
  | [], _ => ((_timing_buckets.getLast?).getD 0 : ℕ)
  | (b, m) :: rest, prev =>
    if c < (m : ℚ) ∨ (q = 1 ∧ (m : ℚ) = c) then
      match prev with
      | none => (_timing_buckets.headI : ℕ)
      | some (pb, pm) =>
        let x := (c - (pm : ℚ)) / ((m : ℚ) - (pm : ℚ))
        x * (b : ℚ) + (1 - x) * (pb : ℚ)
    else quantileAux q c rest (some (b, m))

/-- Model of `Stats.quantile` from `models.py` lines 60-72. -/
def Stats.quantile (s : Stats) (q : ℚ) : ℚ :=
  quantileAux q (q * s.count) (_timing_buckets.zip s.measurements) none

/-- Model of `Stats.__add__`, `models.py` lines 74-80: componentwise. -/
def Stats.add (s other : Stats) : Stats :=
  { measurements := s.measurements.zipWith (· + ·) other.measurements
    count := s.count + other.count
    sum := s.sum + other.sum
    sum_sq := s.sum_sq + other.sum_sq }

/-- Model of `Stats.__sub__`, `models.py` lines 82-88: componentwise. -/
def Stats.sub (s other : Stats) : Stats :=
  { measurements := s.measurements.zipWith (· - ·) other.measurements
    count := s.count - other.count
    sum := s.sum - other.sum
    sum_sq := s.sum_sq - other.sum_sq }

/-- A `Stats` built by observing a stream of values into a fresh instance. -/
def buildStats (xs : List ℚ) : Stats := xs.foldl Stats.observe freshStats

/-- Index of the first list entry satisfying the predicate, counting from
`i`: the declarative search the claim describes the quantile rule with. -/
def quantileSearch (p : ℤ → Bool) : List ℤ → ℕ → Option ℕ
  | [], _ => none
  | m :: rest, i => if p m then some i else quantileSearch p rest (i + 1)

/-- Quantile rule exactly as the claim words it (no additional case): with
`c = q * count`, take the first index `i` with `measurements[i] > c`; return
`buckets[0]` when that index is 0, `buckets[last]` when no such index exists,
and otherwise interpolate between `buckets[i-1]` and `buckets[i]` with weight
`x = (c - measurements[i-1]) / (measurements[i] - measurements[i-1])`. -/
def quantileClaim (s : Stats) (q : ℚ) : ℚ :=
  let c := q * s.count
  match quantileSearch (fun m => decide (c < (m : ℚ))) s.measurements 0 with
  | none => ((_timing_buckets.getLast?).getD 0 : ℕ)
  | some 0 => (_timing_buckets.headI : ℕ)
  | some (i + 1) =>
    let pm : ℚ := (s.measurements.getD i 0 : ℤ)
    let m : ℚ := (s.measurements.getD (i + 1) 0 : ℤ)
    let x := (c - pm) / (m - pm)
    x * (_timing_buckets.getD (i + 1) 0 : ℕ) + (1 - x) * (_timing_buckets.getD i 0 : ℕ)

/-- Quantile rule as amended: the search condition additionally stops, when
`q = 1`, at the first index whose cumulative count equals `c`; the three
result cases are unchanged. -/
def quantileAmended (s : Stats) (q : ℚ) : ℚ :=
  let c := q * s.count
  match quantileSearch (fun m => decide (c < (m : ℚ) ∨ (q = 1 ∧ (m : ℚ) = c)))
      s.measurements 0 with
  | none => ((_timing_buckets.getLast?).getD 0 : ℕ)
  | some 0 => (_timing_buckets.headI : ℕ)
  | some (i + 1) =>
    let pm : ℚ := (s.measurements.getD i 0 : ℤ)
    let m : ℚ := (s.measurements.getD (i + 1) 0 : ℤ)
    let x := (c - pm) / (m - pm)
    x * (_timing_buckets.getD (i + 1) 0 : ℕ) + (1 - x) * (_timing_buckets.getD i 0 : ℕ)

/-- Stats values reachable by `observe` and `add` from fresh instances, the
construction set of claim C7. -/
inductive ReachableOA : Stats → Prop
  | fresh : ReachableOA freshStats
  | observe (s : Stats) (x : ℚ) : ReachableOA s → ReachableOA (s.observe x)
  | add (s t : Stats) : ReachableOA s → ReachableOA t → ReachableOA (s.add t)

/-- Stats values reachable by any of the operations of `models.py` from fresh
instances. -/
inductive ReachableStats : Stats → Prop
  | fresh : ReachableStats freshStats
  | observe (s : Stats) (x : ℚ) : ReachableStats s → ReachableStats (s.observe x)
  | add (s t : Stats) : ReachableStats s → ReachableStats t → ReachableStats (s.add t)
  | sub (s t : Stats) : ReachableStats s → ReachableStats t → ReachableStats (s.sub t)

/-- Model of the module-level function `_timestamp_to_slot`, `models.py` lines
147-149.  A timestamp is embedded as the rational number of seconds since the
Unix epoch; `946684800` is 2000-01-01T00:00:00Z and `int(...)` truncates. -/
def _timestamp_to_slot (timestamp : ℚ) : ℤ :=
  pyInt ((timestamp - 946684800) * 2)

/-- Model of `_block_producer_for_timestamp`, `models.py` lines 151-153.
Python `%` on ints with a positive modulus is `Int.emod`, and `//` on the
resulting nonnegative value is natural division.  Indexing is embedded
fallibly: `none` stands for the exception Python raises when the schedule is
empty or the index is out of range. -/
def _block_producer_for_timestamp (timestamp : ℚ) (schedule : List String) :
    Option (String × ℤ) :=
  let slot := _timestamp_to_slot timestamp
  (schedule.get? ((slot % ((schedule.length : ℤ) * 12)).toNat / 12)).map
    (fun p => (p, slot % 12))

/-- The exception classes caught by the retry decorator in `models.py` line
182: `URLError`, `HTTPException`, `ConnectionError`. -/
inductive NetError
  | urlError
  | httpException
  | connectionError
deriving DecidableEq

/-- The generator `_backoff`, `models.py` lines 156-174, modelled by its
sleeps: it yields 9 times, and after the k-th yielded attempt fails the k-th
listed sleep runs when the generator is resumed (the 900 s sleep runs right
before the generator is exhausted). -/
def _backoff : List ℕ := [5, 10, 15, 20, 30, 60, 120, 300, 900]

/-- The retry loop of `_with_backoff` driven by the remaining sleeps: run the
next attempt; on success return its value with no further sleeps, on a caught
error perform the pending sleep and continue.  When the sleeps are exhausted
the Python for loop ends and the wrapper falls through, returning `None`. -/
def backoffGo {α : Type} (attempt : ℕ → Except NetError α) (i : ℕ) :
    List ℕ → Option α × List ℕ
  | [] => (none, [])
  | s :: rest =>
    match attempt i with
    | .ok a => (some a, [])
    | .error _ =>
      let r := backoffGo attempt (i + 1) rest
      (r.1, s :: r.2)

/-- Model of the decorator `_with_backoff`, `models.py` lines 177-183, applied
to a wrapped RPC whose successive invocations are `attempt 0`, `attempt 1`,
....  The result pairs what the wrapper returns (`none` models returning the
Python value `None`) with the list of sleeps performed, in seconds. -/
def _with_backoff {α : Type} (attempt : ℕ → Except NetError α) : Option α × List ℕ :=
  backoffGo attempt 0 _backoff

/-- Lookup in a Python dict embedded as an insertion-ordered association
list. -/
def dictGet {α : Type} (d : List (String × α)) (k : String) : Option α :=
  (d.find? (fun p => p.1 == k)).map Prod.snd

/-- Assignment in a Python dict embedded as an insertion-ordered association
list: replace in place when the key exists, append otherwise. -/
def dictSet {α : Type} (d : List (String × α)) (k : String) (v : α) :
    List (String × α) :=
  if d.any (fun p => p.1 == k) then
    d.map (fun p => if p.1 == k then (k, v) else p)
  else d ++ [(k, v)]

/-- Lookup in a dict with integer keys (the schedule store). -/
def natDictGet {α : Type} (d : List (ℕ × α)) (k : ℕ) : Option α :=
  (d.find? (fun p => p.1 == k)).map Prod.snd

/-- Assignment in a dict with integer keys (the schedule store). -/
def natDictSet {α : Type} (d : List (ℕ × α)) (k : ℕ) (v : α) : List (ℕ × α) :=
  if d.any (fun p => p.1 == k) then
    d.map (fun p => if p.1 == k then (k, v) else p)
  else d ++ [(k, v)]

/-- The polymorphic `trx` field of a transaction: either the packed string
form or the structured dict form carrying actions as (account, name) pairs
(the further action payload is not consulted by this code). -/
inductive Trx
  | packed (s : String)
  | full (actions : List (String × String))
deriving DecidableEq

/-- A transaction entry of a block, as consumed by `BpData.process_block`. -/
structure Tx where
  cpu_usage_us : ℚ
  trx : Trx
deriving DecidableEq

/-- The `new_producers` payload of a block: a schedule version and the
producer names. -/
structure ScheduleUpdate where
  version : ℕ
  producers : List String
deriving DecidableEq

/-- A block as consumed by `Database._handle_block`; `timestamp` is the
parsed ISO-8601 timestamp in seconds since the Unix epoch. -/
structure Block where
  timestamp : ℚ
  producer : String
  block_num : ℤ
  schedule_version : ℕ
  new_producers : Option ScheduleUpdate
  transactions : List Tx
deriving DecidableEq

/-- The `BpData` class of `models.py` lines 91-144: per-producer totals with
12-entry per-slot arrays and a dict of action signature to `Stats`. -/
structure BpData where
  tx_data : List (String × Stats)
  slots_passed : List ℤ
  blocks_produced : List ℤ
deriving DecidableEq

/-- The `BpData.__init__`: empty dict, twelve zeros in each array. -/
def freshBpData : BpData :=
  { tx_data := []
    slots_passed := List.replicate 12 0
    blocks_produced := List.replicate 12 0 }

/-- Increment entry `slot` of a 12-entry array; callers always pass
`slot = s % 12`, in range. -/
def bump12 (l : List ℤ) (slot : ℤ) : List ℤ :=
  l.set slot.toNat (l.getD slot.toNat 0 + 1)

/-- Model of `BpData.miss_block`, `models.py` lines 97-98. -/
def BpData.miss_block (bp : BpData) (slot : ℤ) : BpData :=
  { bp with slots_passed := bump12 bp.slots_passed slot }

/-- The action signature string formed by `process_block`. -/
def actionSig (account name : String) : String := account ++ ":" ++ name

/-- Model of `BpData.process_block`, `models.py` lines 100-110: count the
slot and the produced block, then observe the CPU usage of every structured
single-action transaction under its action signature. -/
def BpData.process_block (bp : BpData) (block : Block) (slot : ℤ) : BpData :=
  let bp :=
    { bp with
      slots_passed := bump12 bp.slots_passed slot
      blocks_produced := bump12 bp.blocks_produced slot }
  block.transactions.foldl (fun acc tx =>
    match tx.trx with
    | .packed _ => acc
    | .full actions =>
      match actions with
      | [a] =>
        let sig := actionSig a.1 a.2
        let st := ((dictGet acc.tx_data sig).getD freshStats).observe tx.cpu_usage_us
        { acc with tx_data := dictSet acc.tx_data sig st }
      | _ => acc) bp

/-- Model of the `slots_passed_total` property, `models.py` lines 112-114. -/
def BpData.slots_passed_total (bp : BpData) : ℤ := bp.slots_passed.sum

/-- Model of the `blocks_produced_total` property, `models.py` lines 116-118. -/
def BpData.blocks_produced_total (bp : BpData) : ℤ := bp.blocks_produced.sum

/-- Accumulate entries into a defaultdict of `Stats` by `+=`. -/
def dictAddInto (acc entries : List (String × Stats)) : List (String × Stats) :=
  entries.foldl
    (fun acc e => dictSet acc e.1 (((dictGet acc e.1).getD freshStats).add e.2)) acc

/-- Accumulate entries into a defaultdict of `Stats` by `-=`. -/
def dictSubInto (acc entries : List (String × Stats)) : List (String × Stats) :=
  entries.foldl
    (fun acc e => dictSet acc e.1 (((dictGet acc e.1).getD freshStats).sub e.2)) acc

/-- Model of `BpData.__add__`, `models.py` lines 120-128. -/
def BpData.add (x y : BpData) : BpData :=
  { tx_data := dictAddInto (dictAddInto [] x.tx_data) y.tx_data
    slots_passed := x.slots_passed.zipWith (· + ·) y.slots_passed
    blocks_produced := x.blocks_produced.zipWith (· + ·) y.blocks_produced }

/-- Model of `BpData.__sub__`, `models.py` lines 130-138. -/
def BpData.sub (x y : BpData) : BpData :=
  { tx_data := dictSubInto (dictAddInto [] x.tx_data) y.tx_data
    slots_passed := x.slots_passed.zipWith (· - ·) y.slots_passed
    blocks_produced := x.blocks_produced.zipWith (· - ·) y.blocks_produced }

/-- Model of `BpData.minify`, `models.py` lines 140-144: drop `tx_data`
entries whose count is zero. -/
def BpData.minify (bp : BpData) : BpData :=
  { bp with tx_data := bp.tx_data.filter (fun e => decide (e.2.count ≠ 0)) }

/-- The `BlockSummary` class of `models.py` lines 188-205. -/
structure BlockSummary where
  producers : List (String × BpData)
  last_block_num : ℤ
  last_schedule_num : ℕ
deriving DecidableEq

/-- Model of `BlockSummary.__sub__`, `models.py` lines 194-205: per producer
of the minuend, subtract the subtrahend entry when present; keep the result,
minified, only when its `slots_passed_total` is positive. -/
def BlockSummary.sub (b a : BlockSummary) : BlockSummary :=
  { last_block_num := b.last_block_num
    last_schedule_num := b.last_schedule_num
    producers := b.producers.foldl (fun acc e =>
      let bp := match dictGet a.producers e.1 with
                | some o => e.2.sub o
                | none => e.2
      if (0 : ℤ) < bp.slots_passed_total then dictSet acc e.1 bp.minify else acc) [] }

/-- The mutable state of a `Database` run that `_handle_block` touches: the
cursor timestamp, the in-memory `BlockSummary`, the schedule store, and the
list of snapshot writes performed (the `block_db` puts). -/
structure DBState where
  timestamp : ℚ
  current_block : BlockSummary
  schedule_db : List (ℕ × List String)
  saved : List (ℚ × BlockSummary)
deriving DecidableEq

/-- Model of `Database._schedule`, `models.py` lines 305-314: version 0 is the
hard-coded `["eosio"]`, otherwise a schedule store lookup (`none` models both
a missing row and the Python `None` result). -/
def DBState.schedule (st : DBState) (schedule_num : ℕ) : Option (List String) :=
  if schedule_num = 0 then some ["eosio"] else natDictGet st.schedule_db schedule_num

/-- Model of `Database._maybe_save_block`, `models.py` lines 280-296: write a
snapshot keyed by the cursor timestamp whenever its slot is a multiple of
`21 * 12 * 10`. -/
def maybeSave (st : DBState) : DBState :=
  if _timestamp_to_slot st.timestamp % (21 * 12 * 10) = 0 then
    { st with saved := st.saved ++ [(st.timestamp, st.current_block)] }
  else st

/-- One iteration of the gap-imputation loop of `_handle_block`, `models.py`
lines 263-270, for loop index `i`: when the schedule of the previous block
resolves and is non-empty (Python truthiness guards both), attribute a missed
slot to the scheduled producer at `last_timestamp + (i+1) * 0.5s`, advance
the cursor and run the snapshot trigger. -/
def gapStep (last_timestamp : ℚ) (st : DBState) (i : ℕ) : DBState :=
  match st.schedule st.current_block.last_schedule_num with
  | none => st
  | some sched =>
    if sched.isEmpty then st
    else
      let missed_timestamp := last_timestamp + ((i : ℚ) + 1) * (1 / 2)
      match _block_producer_for_timestamp missed_timestamp sched with
      | none => st
      | some (producer, slot_position) =>
        let st := { st with timestamp := missed_timestamp }
        let cb := st.current_block
        let newBp := ((dictGet cb.producers producer).getD freshBpData).miss_block
          slot_position
        let st :=
          { st with current_block := { cb with producers := dictSet cb.producers producer newBp } }
        maybeSave st

/-- The block-application tail of `_handle_block`, `models.py` lines 272-278:
resolve the schedule of the incoming block, compute the slot position at its
timestamp (the expected producer is bound to `_` and discarded), process the
block under `block.producer`, update the cursor fields, and run the snapshot
trigger before advancing the cursor timestamp.  An unresolvable schedule
version raises (`len(None)` inside `_block_producer_for_timestamp`), and an
empty schedule raises on `slot % 0`. -/
def applyBlock (st : DBState) (block : Block) : Except PyExn DBState :=
  match st.schedule block.schedule_version with
  | none => .error .typeError
  | some sched =>
    match _block_producer_for_timestamp block.timestamp sched with
    | none => .error .zeroDivisionError
    | some (_, slot_position) =>
      let cb := st.current_block
      let newBp := ((dictGet cb.producers block.producer).getD freshBpData).process_block
        block slot_position
      let cb :=
        { cb with
          producers := dictSet cb.producers block.producer newBp
          last_schedule_num := block.schedule_version
          last_block_num := block.block_num }
      let st := maybeSave { st with current_block := cb }
      .ok { st with timestamp := block.timestamp }

/-- Model of `Database._handle_block`, `models.py` lines 255-278: persist an
embedded new schedule, impute the missed slots of the timestamp gap, and then
apply the block itself. -/
def handleBlock (st : DBState) (block : Block) : Except PyExn DBState :=
  let st :=
    match block.new_producers with
    | some su => { st with schedule_db := natDictSet st.schedule_db su.version su.producers }
    | none => st
  let last_timestamp := st.timestamp
  let slots_missed := pyInt ((block.timestamp - last_timestamp) * 2) - 1
  applyBlock ((List.range slots_missed.toNat).foldl (gapStep last_timestamp) st) block

/-- A concrete 21-producer schedule used by witnesses. -/
def demoSchedule : List String :=
  ["p01", "p02", "p03", "p04", "p05", "p06", "p07", "p08", "p09", "p10",
   "p11", "p12", "p13", "p14", "p15", "p16", "p17", "p18", "p19", "p20", "p21"]

/-- A concrete per-producer aggregate with one attributed slot. -/
def demoBpData : BpData :=
  { tx_data := []
    slots_passed := [1, 0, 0, 0, 0, 0, 0, 0, 0, 0, 0, 0]
    blocks_produced := List.replicate 12 0 }

/-- Concrete minuend snapshot for witnesses. -/
def demoSummaryB : BlockSummary :=
  { producers := [("alice", demoBpData)], last_block_num := 1, last_schedule_num := 0 }

/-- Concrete subtrahend snapshot for witnesses. -/
def demoSummaryA : BlockSummary :=
  { producers := [], last_block_num := 0, last_schedule_num := 0 }

/-- Concrete database state for the producer-mismatch scenario: cursor half a
second past the year-2000 epoch, schedule version 1 installed. -/
def demoState : DBState :=
  { timestamp := 946684800 + 1 / 2
    current_block := { producers := [], last_block_num := 1, last_schedule_num := 1 }
    schedule_db := [(1, demoSchedule)]
    saved := [] }

/-- Concrete block whose producer differs from the producer the schedule
expects at its timestamp (slot 2 belongs to "p01", not "zzz"). -/
def demoBlock : Block :=
  { timestamp := 946684801
    producer := "zzz"
    block_num := 2
    schedule_version := 1
    new_producers := none
    transactions := [] }

/-! Theorems -/

/-- Python `int()` of a natural number is itself. -/
theorem pyInt_natCast (k : ℕ) : pyInt (k : ℚ) = k := by
  rw [pyInt, if_neg (not_lt.mpr (by positivity)), Int.floor_natCast]

/-- A timestamp `k` half-seconds past the year-2000 epoch maps to slot `k`. -/
theorem slot_at_halfsec (k : ℕ) :
    _timestamp_to_slot (946684800 + (k : ℚ) / 2) = k := by
  have h : (946684800 + (k : ℚ) / 2 - 946684800) * 2 = (k : ℚ) := by ring
  rw [_timestamp_to_slot, h, pyInt_natCast]

/-- The observe loop does not change the number of entries. -/
theorem bumpRev_length (x : ℚ) (l : List (ℕ × ℤ)) : (bumpRev x l).length = l.length := by
  induction l with
  | nil => rfl
  | cons p rest ih =>
    obtain ⟨b, m⟩ := p
    by_cases h : x < (b : ℚ) <;> simp [bumpRev, h, ih]

/-- Claim C1, counterexample: when every attempt fails with a caught
network error, the wrapper performs the sleeps 5...900 and then returns the
Python value `None` (the `none` component) to the caller instead of
propagating the error, refuting the claimed propagation. -/
theorem retry_returns_none_counterexample :
    _with_backoff (fun _ => (Except.error NetError.urlError : Except NetError ℕ)) =
      (none, [5, 10, 15, 20, 30, 60, 120, 300, 900]) := by
  rfl

/-- Claim C1 (amended): if all attempts fail with a caught network/IO or HTTP
error, the wrapper makes 9 attempts, sleeping 5, 10, 15, 20, 30, 60, 120 and
300 seconds between successive attempts and 900 seconds after the final
failure, and then returns `None` to the caller rather than propagating the
error. -/
theorem retry_schedule_and_exhaustion {α : Type} (attempt : ℕ → Except NetError α)
    (h : ∀ i, i < 9 → ∃ e, attempt i = .error e) :
    _with_backoff attempt = (none, [5, 10, 15, 20, 30, 60, 120, 300, 900]) := by
  obtain ⟨e0, h0⟩ := h 0 (by omega)
  obtain ⟨e1, h1⟩ := h 1 (by omega)
  obtain ⟨e2, h2⟩ := h 2 (by omega)
  obtain ⟨e3, h3⟩ := h 3 (by omega)
  obtain ⟨e4, h4⟩ := h 4 (by omega)
  obtain ⟨e5, h5⟩ := h 5 (by omega)
  obtain ⟨e6, h6⟩ := h 6 (by omega)
  obtain ⟨e7, h7⟩ := h 7 (by omega)
  obtain ⟨e8, h8⟩ := h 8 (by omega)
  simp [_with_backoff, _backoff, backoffGo, h0, h1, h2, h3, h4, h5, h6, h7, h8]

/-- Claim C1, witness for the amended theorem at a concrete always-failing
attempt function. -/
theorem retry_schedule_and_exhaustion_witness :
    (∀ i, i < 9 →
      ∃ e, (fun _ => (Except.error NetError.urlError : Except NetError ℕ)) i = .error e) ∧
    _with_backoff (fun _ => (Except.error NetError.urlError : Except NetError ℕ)) =
      (none, [5, 10, 15, 20, 30, 60, 120, 300, 900]) :=
  ⟨fun _ _ => ⟨NetError.urlError, rfl⟩,
   retry_schedule_and_exhaustion _ (fun _ _ => ⟨NetError.urlError, rfl⟩)⟩

/-- Claim C4, counterexample: the program holds two bucket sequences, the R20
progression of `models.py` (75 boundaries over [100, 500000]) and the R10
progression of `models/stats.py` (41 boundaries over [100, 1000000]); they
differ, and the two Stats constructors size their measurement arrays
differently, so not every Stats instance is built over one single sequence. -/
theorem buckets_single_sequence_counterexample :
    _timing_buckets.length = 75 ∧ timing_buckets.length = 41 ∧
    _timing_buckets ≠ timing_buckets ∧
    StatsPyInit.measurements.length ≠ freshStats.measurements.length := by
  decide

/-- Claim C4 (amended): the `models.py` bucket sequence is one fixed,
process-wide strictly ascending Renard-R20 progression covering
[100, 500000] microseconds, and every Stats instance built by the operations
of `models.py` carries a measurements array over that same sequence of the
same length; the parallel `models/stats.py` module uses its own distinct R10
sequence instead. -/
theorem timing_buckets_fixed_ascending :
    List.Chain' (· < ·) _timing_buckets ∧
    _timing_buckets.head? = some 100 ∧
    _timing_buckets.getLast? = some 500000 ∧
    ∀ s, ReachableStats s → s.measurements.length = _timing_buckets.length := by
  refine ⟨by rw [List.chain'_iff_pairwise]; decide, by decide, by decide, ?_⟩
  intro s h
  induction h with
  | fresh => simp [freshStats]
  | observe s x _ ih =>
    simp only [Stats.observe, List.length_map, List.length_reverse, bumpRev_length,
      List.length_zip, ih, Nat.min_self]
  | add s t _ _ ihs iht => simp [Stats.add, ihs, iht]
  | sub s t _ _ ihs iht => simp [Stats.sub, ihs, iht]

/-- Claim C4, witness for the amended theorem at the fresh Stats instance. -/
theorem timing_buckets_fixed_ascending_witness :
    ReachableStats freshStats ∧
    freshStats.measurements.length = _timing_buckets.length :=
  ⟨ReachableStats.fresh,
   timing_buckets_fixed_ascending.2.2.2 freshStats ReachableStats.fresh⟩

/-- Claim C8, counterexample: on the empty Stats, `mean` raises
`ZeroDivisionError` (the division `sum / count` is unguarded) rather than
evaluating to NaN, while `stddev` does evaluate to NaN. -/
theorem empty_stats_mean_raises_counterexample :
    Stats.mean freshStats = .error .zeroDivisionError ∧
    Stats.stddev freshStats = .ok .nan :=
  ⟨rfl, rfl⟩

/-- Claim C8 (amended): for a Stats with `count = 0`, `stddev` evaluates to
NaN without raising, but `mean` raises `ZeroDivisionError`. -/
theorem empty_stats_mean_stddev (s : Stats) (h : s.count = 0) :
    Stats.mean s = .error .zeroDivisionError ∧ Stats.stddev s = .ok .nan := by
  constructor <;> simp [Stats.mean, Stats.stddev, h]

/-- Claim C8, witness for the amended theorem at the fresh Stats instance. -/
theorem empty_stats_mean_stddev_witness :
    freshStats.count = 0 ∧
    (Stats.mean freshStats = .error .zeroDivisionError ∧
     Stats.stddev freshStats = .ok .nan) :=
  ⟨rfl, empty_stats_mean_stddev freshStats rfl⟩

/-- Claim C9: evaluating the code at the failing input.  The Stats obtained
by subtracting `observe 6` from `observe 1; observe 5` has `count = 1` and a
negative stddev radicand (−10); the code does not clamp it to 0: `math.sqrt`
raises `ValueError` instead of returning 0. -/
theorem stddev_negative_radicand_raises :
    (((freshStats.observe 1).observe 5).sub (freshStats.observe 6)).count = 1 ∧
    ((((freshStats.observe 1).observe 5).sub (freshStats.observe 6)).sum_sq /
        (((freshStats.observe 1).observe 5).sub (freshStats.observe 6)).count -
      ((((freshStats.observe 1).observe 5).sub (freshStats.observe 6)).sum /
        (((freshStats.observe 1).observe 5).sub (freshStats.observe 6)).count) ^ 2) = -10 ∧
    Stats.stddev (((freshStats.observe 1).observe 5).sub (freshStats.observe 6)) =
      .error .valueError := by
  refine ⟨by norm_num [Stats.sub, Stats.observe, freshStats], ?_, ?_⟩
  · norm_num [Stats.sub, Stats.observe, freshStats]
  · norm_num [Stats.stddev, Stats.sub, Stats.observe, freshStats]

/-- Claim C3: for a schedule of exactly 21 producers, the producer resolved
at the timestamp `epoch + k * 0.5 s` is the entry at index
`(k mod 252) div 12` and the slot position is `k mod 12`. -/
theorem schedule_rotation (S : List String) (k : ℕ) (h : S.length = 21) :
    ∃ p, S.get? (k % 252 / 12) = some p ∧
      _block_producer_for_timestamp (946684800 + (k : ℚ) / 2) S =
        some (p, (k : ℤ) % 12) := by
  have hidx : k % 252 / 12 < S.length := by rw [h]; omega
  refine ⟨S.get ⟨_, hidx⟩, List.get?_eq_get hidx, ?_⟩
  rw [_block_producer_for_timestamp]
  simp only [slot_at_halfsec]
  have hidx2 : (((k : ℤ) % ((S.length : ℤ) * 12)).toNat / 12) = k % 252 / 12 := by
    rw [h]; omega
  rw [hidx2]
  simp [List.get?_eq_get hidx]

/-- Claim C3, witness at a concrete 21-producer schedule and k = 500:
the resolved producer is entry (500 mod 252) div 12 = 20 and the slot
position is 500 mod 12 = 8. -/
theorem schedule_rotation_witness :
    demoSchedule.length = 21 ∧
    ∃ p, demoSchedule.get? (500 % 252 / 12) = some p ∧
      _block_producer_for_timestamp (946684800 + (500 : ℚ) / 2) demoSchedule =
        some (p, (500 : ℤ) % 12) :=
  ⟨by decide, schedule_rotation demoSchedule 500 (by decide)⟩

/-- The observe loop increments the entries of a prefix of the reversed pair
list and leaves the rest unchanged. -/
theorem bumpRev_shape (x : ℚ) (l : List (ℕ × ℤ)) :
    ∃ k, bumpRev x l = (l.take k).map (fun p => (p.1, p.2 + 1)) ++ l.drop k := by
  induction l with
  | nil => exact ⟨0, rfl⟩
  | cons p rest ih =>
    obtain ⟨b, m⟩ := p
    by_cases h : x < (b : ℚ)
    · obtain ⟨k, hk⟩ := ih
      exact ⟨k + 1, by simp [bumpRev, h, hk]⟩
    · exact ⟨0, by simp [bumpRev, h]⟩

/-- The measurements of an observation split the old measurements into an
unchanged prefix and a suffix with every entry incremented. -/
theorem observe_shape (s : Stats) (x : ℚ)
    (hlen : s.measurements.length = _timing_buckets.length) :
    ∃ C D, s.measurements = C ++ D ∧
      (s.observe x).measurements = C ++ D.map (· + 1) := by
  obtain ⟨k, hk⟩ := bumpRev_shape x ((_timing_buckets.zip s.measurements).reverse)
  set l := (_timing_buckets.zip s.measurements).reverse with hl
  have hsnd : (_timing_buckets.zip s.measurements).map Prod.snd = s.measurements :=
    List.map_snd_zip _ _ (le_of_eq hlen)
  refine ⟨((l.drop k).reverse).map Prod.snd, ((l.take k).reverse).map Prod.snd, ?_, ?_⟩
  · rw [← List.map_append, ← List.reverse_append, List.take_append_drop, hl,
      List.reverse_reverse, hsnd]
  · rw [Stats.observe]
    simp only [← hl, hk, List.reverse_append, List.map_append, List.map_reverse,
      List.map_map]
    rfl

/-- The length of the measurements array is preserved by an observation. -/
theorem observe_length (s : Stats) (x : ℚ)
    (hlen : s.measurements.length = _timing_buckets.length) :
    (s.observe x).measurements.length = _timing_buckets.length := by
  simp only [Stats.observe, List.length_map, List.length_reverse, bumpRev_length,
    List.length_zip, hlen, Nat.min_self]

/-- Appending componentwise related lists preserves the pointwise order. -/
theorem forall2_append {R : ℤ → ℤ → Prop} : ∀ {l1 l2 l3 l4 : List ℤ},
    List.Forall₂ R l1 l2 → List.Forall₂ R l3 l4 →
    List.Forall₂ R (l1 ++ l3) (l2 ++ l4) := by
  intro l1 l2 l3 l4 h12 h34
  induction h12 with
  | nil => simpa
  | cons hab h ih => exact List.Forall₂.cons hab ih

/-- Observing can only grow each measurement entry. -/
theorem observe_meas_le (s : Stats) (x : ℚ)
    (hlen : s.measurements.length = _timing_buckets.length) :
    List.Forall₂ (· ≤ ·) s.measurements (s.observe x).measurements := by
  obtain ⟨C, D, h1, h2⟩ := observe_shape s x hlen
  rw [h1, h2]
  refine forall2_append (List.forall₂_same.mpr fun a _ => le_refl a) ?_
  rw [List.forall₂_map_right_iff]
  exact List.forall₂_same.mpr fun a _ => by omega

/-- Transitivity of the pointwise order on integer lists. -/
theorem forall2_le_trans : ∀ {l1 l2 l3 : List ℤ},
    List.Forall₂ (· ≤ ·) l1 l2 → List.Forall₂ (· ≤ ·) l2 l3 →
    List.Forall₂ (· ≤ ·) l1 l3 := by
  intro l1 l2 l3 h12 h23
  induction h12 generalizing l3 with
  | nil => cases h23; exact List.Forall₂.nil
  | cons hab h ih =>
    cases h23 with
    | cons hbc h23 => exact List.Forall₂.cons (le_trans hab hbc) (ih h23)

/-- Componentwise subtraction of a pointwise smaller list is nonnegative. -/
theorem zipWith_sub_nonneg : ∀ {l1 l2 : List ℤ},
    List.Forall₂ (· ≤ ·) l1 l2 →
    ∀ m ∈ l2.zipWith (· - ·) l1, 0 ≤ m := by
  intro l1 l2 h
  induction h with
  | nil => intro m hm; simp at hm
  | cons hab h ih =>
    intro m hm
    rw [List.zipWith_cons_cons, List.mem_cons] at hm
    rcases hm with hm | hm
    · omega
    · exact ih m hm

/-- Folding further observations over a Stats grows count by the number of
observations, sum by their total, and each measurement entry monotonically,
preserving the array length. -/
theorem foldl_observe_ext (ys : List ℚ) : ∀ (s : Stats),
    s.measurements.length = _timing_buckets.length →
    (ys.foldl Stats.observe s).count = s.count + ys.length ∧
    (ys.foldl Stats.observe s).sum = s.sum + ys.sum ∧
    List.Forall₂ (· ≤ ·) s.measurements (ys.foldl Stats.observe s).measurements ∧
    (ys.foldl Stats.observe s).measurements.length = _timing_buckets.length := by
  induction ys with
  | nil =>
    intro s h
    exact ⟨by simp, by simp, List.forall₂_same.mpr fun a _ => le_refl a, h⟩
  | cons y ys ih =>
    intro s h
    obtain ⟨hc, hs, hf, hl⟩ := ih (s.observe y) (observe_length s y h)
    refine ⟨?_, ?_, ?_, hl⟩
    · rw [List.foldl_cons, hc]
      simp only [Stats.observe, List.length_cons]
      omega
    · rw [List.foldl_cons, hs]
      simp [Stats.observe, List.sum_cons]
      ring
    · exact forall2_le_trans (observe_meas_le s y h) hf

/-- The measurements array of any Stats built from a fresh instance by a
stream of observations has the bucket-sequence length. -/
theorem buildStats_length (xs : List ℚ) :
    (buildStats xs).measurements.length = _timing_buckets.length :=
  (foldl_observe_ext xs freshStats (by simp [freshStats])).2.2.2

/-- Claim C6, counterexample: observing the additional value −1 on top of an
empty observation stream produces a delta whose sum is negative, refuting the
unconditional claim that the delta sum is nonnegative. -/
theorem stats_delta_sum_negative_counterexample :
    ((buildStats ([] ++ [-1])).sub (buildStats [])).sum < 0 := by
  norm_num [buildStats, Stats.sub, Stats.observe, freshStats]

/-- Claim C6 (amended): for Stats t obtained from s by observing additional
values, the delta t − s always has count ≥ 0 and every measurements entry
≥ 0, unconditionally; its sum equals the sum of the additional observed
values, hence is ≥ 0 whenever each additional observed value is nonnegative
(as CPU microsecond observations are). -/
theorem stats_delta_nonneg (xs ys : List ℚ) :
    0 ≤ ((buildStats (xs ++ ys)).sub (buildStats xs)).count ∧
    (∀ m ∈ ((buildStats (xs ++ ys)).sub (buildStats xs)).measurements, 0 ≤ m) ∧
    ((buildStats (xs ++ ys)).sub (buildStats xs)).sum = ys.sum ∧
    ((∀ y ∈ ys, 0 ≤ y) →
      0 ≤ ((buildStats (xs ++ ys)).sub (buildStats xs)).sum) := by
  have happ : buildStats (xs ++ ys) = ys.foldl Stats.observe (buildStats xs) := by
    rw [buildStats, buildStats, List.foldl_append]
  obtain ⟨hc, hs, hf, _⟩ := foldl_observe_ext ys (buildStats xs) (buildStats_length xs)
  rw [happ]
  have hsum : ((ys.foldl Stats.observe (buildStats xs)).sub (buildStats xs)).sum =
      ys.sum := by
    simp only [Stats.sub, hs]
    ring
  refine ⟨?_, zipWith_sub_nonneg hf, hsum, ?_⟩
  · simp only [Stats.sub, hc]
    omega
  · intro hy
    rw [hsum]
    exact List.sum_nonneg hy

/-- Claim C6, witness for the amended theorem: one additional nonnegative
observation on top of the empty stream, exercising the conditional sum
conjunct. -/
theorem stats_delta_nonneg_witness :
    (∀ y ∈ ([150] : List ℚ), 0 ≤ y) ∧
    0 ≤ ((buildStats ([] ++ [150])).sub (buildStats [])).sum :=
  ⟨by norm_num, (stats_delta_nonneg [] [150]).2.2.2 (by norm_num)⟩

/-- Componentwise sums of two nondecreasing lists are nondecreasing. -/
theorem chain'_zipWith_add {l1 l2 : List ℤ}
    (h1 : List.Chain' (· ≤ ·) l1) (h2 : List.Chain' (· ≤ ·) l2) :
    List.Chain' (· ≤ ·) (List.zipWith (· + ·) l1 l2) := by
  rw [List.chain'_iff_get] at h1 h2 ⊢
  intro i hi
  rw [List.length_zipWith] at hi
  simp only [List.get_eq_getElem, List.getElem_zipWith]
  exact add_le_add (h1 i (by omega)) (h2 i (by omega))

/-- Componentwise sums respect the per-list upper bounds. -/
theorem zipWith_add_le : ∀ {l1 l2 : List ℤ} {c1 c2 : ℤ},
    (∀ m ∈ l1, m ≤ c1) → (∀ m ∈ l2, m ≤ c2) →
    ∀ m ∈ List.zipWith (· + ·) l1 l2, m ≤ c1 + c2 := by
  intro l1
  induction l1 with
  | nil => intro l2 c1 c2 _ _ m hm; simp at hm
  | cons a t ih =>
    intro l2 c1 c2 h1 h2 m hm
    cases l2 with
    | nil => simp at hm
    | cons b t2 =>
      rw [List.zipWith_cons_cons, List.mem_cons] at hm
      rcases hm with hm | hm
      · have ha := h1 a (by simp)
        have hb := h2 b (by simp)
        omega
      · exact ih (fun x hx => h1 x (by simp [hx])) (fun x hx => h2 x (by simp [hx])) m hm

/-- A constant-zero list is nondecreasing. -/
theorem chain'_le_replicate_zero (n : ℕ) :
    List.Chain' (· ≤ ·) (List.replicate n (0 : ℤ)) := by
  rw [List.chain'_iff_get]
  intro i hi
  simp

/-- Incrementing a suffix of a nondecreasing list keeps it nondecreasing. -/
theorem chain'_shape {C D : List ℤ} (h : List.Chain' (· ≤ ·) (C ++ D)) :
    List.Chain' (· ≤ ·) (C ++ D.map (· + 1)) := by
  rw [List.chain'_append] at h ⊢
  obtain ⟨hC, hD, hlink⟩ := h
  refine ⟨hC, ?_, ?_⟩
  · rw [List.chain'_map]
    exact List.Chain'.imp (fun a b hab => by omega) hD
  · intro x hx y hy
    rw [List.head?_map] at hy
    obtain ⟨y0, hy0, rfl⟩ := Option.map_eq_some'.mp hy
    have := hlink x hx y0 hy0
    omega

/-- Invariant of Stats values reachable by observe and add: measurement array
of bucket length, nondecreasing, every entry at most count, count
nonnegative. -/
theorem reachableOA_inv (s : Stats) (h : ReachableOA s) :
    s.measurements.length = _timing_buckets.length ∧
    List.Chain' (· ≤ ·) s.measurements ∧
    (∀ m ∈ s.measurements, m ≤ s.count) ∧ 0 ≤ s.count := by
  induction h with
  | fresh =>
    refine ⟨by simp [freshStats], chain'_le_replicate_zero _, ?_, le_refl 0⟩
    intro m hm
    have hm' : m ∈ List.replicate _timing_buckets.length (0 : ℤ) := hm
    have hm0 : m = 0 := List.eq_of_mem_replicate hm'
    simp [freshStats, hm0]
  | observe s x _ ih =>
    obtain ⟨hl, hch, hmem, hc⟩ := ih
    obtain ⟨C, D, h1, h2⟩ := observe_shape s x hl
    have hcount : (s.observe x).count = s.count + 1 := rfl
    refine ⟨observe_length s x hl, ?_, ?_, by omega⟩
    · rw [h2]
      exact chain'_shape (h1 ▸ hch)
    · intro m hm
      rw [h2] at hm
      rw [hcount]
      rcases List.mem_append.mp hm with hm | hm
      · have hms : m ∈ s.measurements := by
          rw [h1]; exact List.mem_append.mpr (Or.inl hm)
        have := hmem m hms
        omega
      · obtain ⟨d, hd, rfl⟩ := List.mem_map.mp hm
        have hds : d ∈ s.measurements := by
          rw [h1]; exact List.mem_append.mpr (Or.inr hd)
        have := hmem d hds
        omega
  | add s t _ _ ihs iht =>
    obtain ⟨hl1, hch1, hmem1, hc1⟩ := ihs
    obtain ⟨hl2, hch2, hmem2, hc2⟩ := iht
    have hcount : (s.add t).count = s.count + t.count := rfl
    refine ⟨?_, ?_, ?_, by omega⟩
    · simp [Stats.add, List.length_zipWith, hl1, hl2]
    · show List.Chain' (· ≤ ·) (List.zipWith (· + ·) s.measurements t.measurements)
      exact chain'_zipWith_add hch1 hch2
    · intro m hm
      rw [hcount]
      exact zipWith_add_le hmem1 hmem2 m hm

/-- Claim C7: starting from a fresh Stats, after any sequence of observe and
add operations (operands likewise built), the measurements array is
monotonically nondecreasing in the index and its last entry is at most
count. -/
theorem measurements_monotone_bounded (s : Stats) (h : ReachableOA s) :
    List.Chain' (· ≤ ·) s.measurements ∧
    s.measurements.getLast?.getD 0 ≤ s.count := by
  obtain ⟨_, hch, hmem, hc⟩ := reachableOA_inv s h
  refine ⟨hch, ?_⟩
  cases hgl : s.measurements.getLast? with
  | none => simpa using hc
  | some m =>
    have hmem0 : m ∈ s.measurements.getLast? := Option.mem_def.mpr hgl
    obtain ⟨hne, heq⟩ := List.mem_getLast?_eq_getLast hmem0
    have hm : m ∈ s.measurements := heq ▸ List.getLast_mem hne
    simpa using hmem m hm

/-- Claim C7, witness at the fresh Stats instance. -/
theorem measurements_monotone_bounded_witness :
    ReachableOA freshStats ∧
    (List.Chain' (· ≤ ·) freshStats.measurements ∧
     freshStats.measurements.getLast?.getD 0 ≤ freshStats.count) :=
  ⟨ReachableOA.fresh, measurements_monotone_bounded freshStats ReachableOA.fresh⟩

/-- A fold whose step preserves a property of every accumulator entry
preserves it overall. -/
theorem foldl_preserve {β γ : Type} (P : γ → Prop) (step : List γ → β → List γ)
    (hstep : ∀ acc e, (∀ x ∈ acc, P x) → ∀ x ∈ step acc e, P x) :
    ∀ (l : List β) (acc : List γ), (∀ x ∈ acc, P x) → ∀ x ∈ l.foldl step acc, P x := by
  intro l
  induction l with
  | nil => intro acc h; simpa
  | cons e rest ih =>
    intro acc h
    exact ih _ (hstep acc e h)

/-- Every entry of a dict after an assignment is an old entry or the
assigned pair. -/
theorem dictSet_mem {α : Type} (d : List (String × α)) (k : String) (v : α)
    (x : String × α) (hx : x ∈ dictSet d k v) : x ∈ d ∨ x = (k, v) := by
  rw [dictSet] at hx
  by_cases h : d.any (fun p => p.1 == k)
  · rw [if_pos h] at hx
    obtain ⟨p, hp, hpx⟩ := List.mem_map.mp hx
    by_cases hk : p.1 == k
    · rw [if_pos hk] at hpx
      exact Or.inr hpx.symm
    · rw [if_neg hk] at hpx
      exact Or.inl (hpx ▸ hp)
  · rw [if_neg h] at hx
    rcases List.mem_append.mp hx with hx | hx
    · exact Or.inl hx
    · exact Or.inr (List.mem_singleton.mp hx)

/-- Minifying does not change the slot totals. -/
theorem minify_slots_passed_total (bp : BpData) :
    bp.minify.slots_passed_total = bp.slots_passed_total := rfl

/-- Claim C10: every producer entry present in a snapshot delta has strictly
positive slots_passed_total, and none of its tx_data entries has count 0. -/
theorem delta_producers_positive (b a : BlockSummary) :
    ∀ e ∈ (BlockSummary.sub b a).producers,
      (0 : ℤ) < e.2.slots_passed_total ∧ ∀ t ∈ e.2.tx_data, t.2.count ≠ 0 := by
  rw [BlockSummary.sub]
  refine foldl_preserve _ _ ?_ b.producers [] (by simp)
  intro acc e hacc x hx
  dsimp only at hx
  set bp := match dictGet a.producers e.1 with
            | some o => e.2.sub o
            | none => e.2 with hbp
  by_cases hpos : (0 : ℤ) < bp.slots_passed_total
  · rw [if_pos hpos] at hx
    rcases dictSet_mem _ _ _ _ hx with hx | hx
    · exact hacc x hx
    · subst hx
      refine ⟨by rw [minify_slots_passed_total]; exact hpos, ?_⟩
      intro t ht
      have := List.mem_filter.mp ht
      simpa using this.2
  · rw [if_neg hpos] at hx
    exact hacc x hx

/-- Claim C10, witness: a concrete delta containing the producer "alice" with
one attributed slot and no zero-count tx entries. -/
theorem delta_producers_positive_witness :
    ("alice", demoBpData) ∈ (BlockSummary.sub demoSummaryB demoSummaryA).producers ∧
    ((0 : ℤ) < demoBpData.slots_passed_total ∧
     ∀ t ∈ demoBpData.tx_data, t.2.count ≠ 0) :=
  ⟨by decide,
   delta_producers_positive demoSummaryB demoSummaryA ("alice", demoBpData) (by decide)⟩

/-- The quantile loop of the code equals the declarative first-index search:
walking the remaining (bucket, measurement) pairs from position `j` with the
pair at `j - 1` at hand computes the match on the first index at or past `j`
whose measurement satisfies the stop condition. -/
theorem quantileAux_eq_search (q c : ℚ) :
    ∀ (msuf : List ℤ) (bsuf : List ℕ) (j : ℕ) (bs0 : List ℕ) (ms0 : List ℤ)
      (prev : Option (ℕ × ℤ)),
      bs0.length = ms0.length →
      bsuf = bs0.drop j → msuf = ms0.drop j → j ≤ ms0.length →
      (j = 0 → prev = none) →
      (∀ j', j = j' + 1 → prev = some (bs0.getD j' 0, ms0.getD j' 0)) →
      quantileAux q c (bsuf.zip msuf) prev =
        match quantileSearch (fun m => decide (c < (m : ℚ) ∨ (q = 1 ∧ (m : ℚ) = c)))
            msuf j with
        | none => ((_timing_buckets.getLast?).getD 0 : ℕ)
        | some 0 => ((_timing_buckets.headI : ℕ) : ℚ)
        | some (i + 1) =>
          let pm : ℚ := ((ms0.getD i 0 : ℤ) : ℚ)
          let m : ℚ := ((ms0.getD (i + 1) 0 : ℤ) : ℚ)
          let x := (c - pm) / (m - pm)
          x * ((bs0.getD (i + 1) 0 : ℕ) : ℚ) + (1 - x) * ((bs0.getD i 0 : ℕ) : ℚ) := by
  intro msuf
  induction msuf with
  | nil =>
    intro bsuf j bs0 ms0 prev _ _ _ _ _ _
    rw [List.zip_nil_right, quantileSearch]
    rfl
  | cons m mrest ih =>
    intro bsuf j bs0 ms0 prev hlen hbs hms hj h0 hsucc
    have hjlt : j < ms0.length := by
      by_contra hge
      rw [List.drop_eq_nil_of_le (by omega)] at hms
      exact (List.cons_ne_nil m mrest) hms
    have hbjlt : j < bs0.length := by omega
    rw [List.drop_eq_getElem_cons hjlt] at hms
    injection hms with hm hmrest
    rw [List.drop_eq_getElem_cons hbjlt] at hbs
    have hm0 : ms0.getD j 0 = m := by
      rw [List.getD_eq_getElem?_getD, List.getElem?_eq_getElem hjlt, hm]
      rfl
    have hb0 : bs0.getD j 0 = bs0[j] := by
      rw [List.getD_eq_getElem?_getD, List.getElem?_eq_getElem hbjlt]
      rfl
    subst hbs
    rw [List.zip_cons_cons]
    by_cases hcond : c < (m : ℚ) ∨ (q = 1 ∧ (m : ℚ) = c)
    · simp only [quantileAux, quantileSearch]
      rw [if_pos hcond, if_pos (by simpa using hcond)]
      cases j with
      | zero => rw [h0 rfl]
      | succ j' =>
        rw [hsucc j' rfl]
        simp only [hm0, hb0]
    · simp only [quantileAux, quantileSearch]
      rw [if_neg hcond, if_neg (by simpa using hcond)]
      exact ih (bs0.drop (j + 1)) (j + 1) bs0 ms0 (some (bs0[j], m)) hlen rfl hmrest
        (by omega) (fun h => (Nat.succ_ne_zero j h).elim)
        (fun j'' h => by
          have hj'' : j'' = j := by omega
          subst hj''
          rw [hb0, hm0])

/-- The bucket sequence of `models.py`, evaluated. -/
theorem timing_buckets_eval :
    _timing_buckets =
      [100, 112, 125, 140, 160, 180, 200, 224, 250, 280, 315, 355, 400, 450, 500,
       560, 630, 710, 800, 900, 1000, 1120, 1250, 1400, 1600, 1800, 2000, 2240,
       2500, 2800, 3150, 3550, 4000, 4500, 5000, 5600, 6300, 7100, 8000, 9000,
       10000, 11200, 12500, 14000, 16000, 18000, 20000, 22400, 25000, 28000,
       31500, 35500, 40000, 45000, 50000, 56000, 63000, 71000, 80000, 90000,
       100000, 112000, 125000, 140000, 160000, 180000, 200000, 224000, 250000,
       280000, 315000, 355000, 400000, 450000, 500000] := by
  decide

/-- Claim C5, counterexample: the Stats observing the single value 50 has
count 1 > 0; at q = 1.0 the code returns buckets[0] = 100 through its extra
q = 1.0 stop condition, while the rule stated by the claim, with no
additional case, returns buckets[last] = 500000. -/
theorem quantile_q1_counterexample :
    (freshStats.observe 50).count = 1 ∧
    Stats.quantile (freshStats.observe 50) 1 = 100 ∧
    quantileClaim (freshStats.observe 50) 1 = 500000 := by
  refine ⟨rfl, ?_, ?_⟩
  · norm_num [Stats.quantile, Stats.observe, freshStats, quantileAux,
      timing_buckets_eval, bumpRev]
  · norm_num [quantileClaim, Stats.observe, freshStats, quantileSearch,
      timing_buckets_eval, bumpRev]

/-- Claim C5 (amended): quantile finds the first bucket index i with
measurements[i] > c, except that at q = 1.0 an index with measurements[i] = c
also stops the search; it returns buckets[0] when that index is 0,
buckets[last] when no such index exists, and otherwise the stated linear
interpolation. -/
theorem quantile_matches_amended_rule (s : Stats) (q : ℚ)
    (hlen : s.measurements.length = _timing_buckets.length) :
    Stats.quantile s q = quantileAmended s q := by
  rw [Stats.quantile, quantileAmended]
  exact quantileAux_eq_search q (q * s.count) s.measurements _timing_buckets 0
    _timing_buckets s.measurements none hlen.symm (List.drop_zero _).symm
    (List.drop_zero _).symm (by omega) (fun _ => rfl)
    (fun j' h => absurd h (by omega))

/-- Claim C5, witness for the amended theorem at the fresh Stats and
q = 1/2. -/
theorem quantile_matches_amended_rule_witness :
    freshStats.measurements.length = _timing_buckets.length ∧
    Stats.quantile freshStats (1 / 2) = quantileAmended freshStats (1 / 2) :=
  ⟨by simp [freshStats],
   quantile_matches_amended_rule freshStats (1 / 2) (by simp [freshStats])⟩

/-- The snapshot trigger never changes the in-memory summary. -/
theorem maybeSave_current_block (st : DBState) :
    (maybeSave st).current_block = st.current_block := by
  rw [maybeSave]
  split <;> rfl

/-- The snapshot trigger never changes the schedule store. -/
theorem maybeSave_schedule_db (st : DBState) :
    (maybeSave st).schedule_db = st.schedule_db := by
  rw [maybeSave]
  split <;> rfl

/-- Gap imputation never changes the schedule store. -/
theorem gapStep_schedule_db (lt : ℚ) (st : DBState) (i : ℕ) :
    (gapStep lt st i).schedule_db = st.schedule_db := by
  rw [gapStep]
  cases h : st.schedule st.current_block.last_schedule_num with
  | none => rfl
  | some sched =>
    by_cases he : sched.isEmpty
    · simp [he]
    · simp only [he, Bool.false_eq_true, if_false]
      cases hb : _block_producer_for_timestamp (lt + ((i : ℚ) + 1) * (1 / 2)) sched with
      | none => rfl
      | some p =>
        obtain ⟨pr, sp⟩ := p
        simp [maybeSave_schedule_db]

/-- The whole gap loop never changes the schedule store. -/
theorem gap_foldl_schedule_db (lt : ℚ) (l : List ℕ) (st : DBState) :
    (l.foldl (gapStep lt) st).schedule_db = st.schedule_db := by
  induction l generalizing st with
  | nil => rfl
  | cons i rest ih => rw [List.foldl_cons, ih, gapStep_schedule_db]

/-- Reading back a key just assigned in a dict yields the assigned value. -/
theorem dictGet_dictSet_self {α : Type} (d : List (String × α)) (k : String) (v : α) :
    dictGet (dictSet d k v) k = some v := by
  rw [dictGet, dictSet]
  by_cases h : d.any (fun p => p.1 == k)
  · rw [if_pos h]
    induction d with
    | nil => simp at h
    | cons p rest ih =>
      by_cases hp : p.1 == k
      · rw [List.map_cons, if_pos hp, List.find?_cons_of_pos _ (by simp)]
        rfl
      · have h' : rest.any (fun p => p.1 == k) = true := by
          simpa [List.any_cons, hp] using h
        rw [List.map_cons, if_neg hp, List.find?_cons_of_neg _ (by simpa using hp)]
        exact ih h'
  · rw [if_neg h]
    have hnone : d.find? (fun p => p.1 == k) = none := by
      rw [List.find?_eq_none]
      intro x hx hpx
      exact h (List.any_eq_true.mpr ⟨x, hx, hpx⟩)
    simp [hnone]

/-- A nonempty schedule always resolves some producer and slot position. -/
theorem bppft_isSome (t : ℚ) (sched : List String) (hne : sched ≠ []) :
    ∃ pr sp, _block_producer_for_timestamp t sched = some (pr, sp) := by
  rw [_block_producer_for_timestamp]
  have hlpos : 0 < sched.length := List.length_pos.mpr hne
  have hpos : (0 : ℤ) < (sched.length : ℤ) * 12 := by positivity
  have h1 : 0 ≤ _timestamp_to_slot t % ((sched.length : ℤ) * 12) :=
    Int.emod_nonneg _ (by omega)
  have h2 : _timestamp_to_slot t % ((sched.length : ℤ) * 12) < (sched.length : ℤ) * 12 :=
    Int.emod_lt_of_pos _ hpos
  have hidx : (_timestamp_to_slot t % ((sched.length : ℤ) * 12)).toNat / 12 <
      sched.length := by omega
  exact ⟨sched.get ⟨_, hidx⟩, _timestamp_to_slot t % 12,
    by rw [List.get?_eq_get hidx]; rfl⟩

/-- Applying a block whose schedule resolves to a nonempty list always
succeeds and incorporates the block under `block.producer`. -/
theorem applyBlock_ok (st : DBState) (b : Block) (sched : List String)
    (hs : st.schedule b.schedule_version = some sched) (hne : sched ≠ []) :
    ∃ st', applyBlock st b = .ok st' ∧
      st'.current_block.last_block_num = b.block_num ∧
      (dictGet st'.current_block.producers b.producer).isSome = true := by
  obtain ⟨pr, sp, hb⟩ := bppft_isSome b.timestamp sched hne
  simp only [applyBlock, hs, hb]
  refine ⟨_, rfl, ?_, ?_⟩
  · simp [maybeSave_current_block]
  · simp [maybeSave_current_block, dictGet_dictSet_self]

/-- Claim C2, counterexample: the schedule expects producer "p01" at the
block timestamp, the block claims producer "zzz", yet `_handle_block`
succeeds without any assertion error and incorporates the block under "zzz",
whose per-producer aggregate then records one produced block. -/
theorem producer_mismatch_not_checked_counterexample :
    (_block_producer_for_timestamp demoBlock.timestamp demoSchedule).map Prod.fst =
      some "p01" ∧
    demoBlock.producer = "zzz" ∧
    ((handleBlock demoState demoBlock).toOption.bind
        (fun st => dictGet st.current_block.producers "zzz")).map
      BpData.blocks_produced_total = some 1 := by
  refine ⟨?_, rfl, ?_⟩
  · norm_num [_block_producer_for_timestamp, _timestamp_to_slot, pyInt, demoBlock,
      demoSchedule, (show ((2 : ℤ)).toNat = 2 from rfl), List.getElem?_cons_zero,
      List.getElem?_cons_succ]
  · norm_num [handleBlock, applyBlock, demoState, demoBlock, demoSchedule,
      DBState.schedule, natDictGet, gapStep, maybeSave, _block_producer_for_timestamp,
      _timestamp_to_slot, pyInt, BpData.process_block, bump12, freshBpData, dictGet,
      dictSet, BpData.blocks_produced_total, Except.toOption,
      (show ((2 : ℤ)).toNat = 2 from rfl), List.getElem?_cons_zero,
      List.getElem?_cons_succ, List.replicate, List.set_cons_zero,
      List.set_cons_succ, List.sum_cons, List.sum_nil]

/-- Claim C2 (amended): when the aggregator applies an incoming block whose
schedule version resolves to a nonempty schedule, it computes only the slot
position at the block timestamp and discards the expected producer: even when
the expected producer differs from the block producer, no assertion error is
surfaced and the block is incorporated under the block producer.  (The
asserting path exists only in the separate `BPPerformance` module.) -/
theorem handle_block_ignores_expected_producer (st : DBState) (b : Block)
    (sched : List String)
    (hnp : b.new_producers = none)
    (hs : st.schedule b.schedule_version = some sched)
    (hne : sched ≠ [])
    (hmmatch : (_block_producer_for_timestamp b.timestamp sched).map Prod.fst ≠
      some b.producer) :
    ∃ st', handleBlock st b = .ok st' ∧
      st'.current_block.last_block_num = b.block_num ∧
      (dictGet st'.current_block.producers b.producer).isSome = true := by
  simp only [handleBlock, hnp]
  apply applyBlock_ok _ _ sched _ hne
  rw [DBState.schedule] at hs ⊢
  rw [gap_foldl_schedule_db]
  exact hs

/-- Claim C2, witness for the amended theorem at the concrete mismatch
scenario. -/
theorem handle_block_ignores_expected_producer_witness :
    demoBlock.new_producers = none ∧
    demoState.schedule demoBlock.schedule_version = some demoSchedule ∧
    demoSchedule ≠ [] ∧
    ((_block_producer_for_timestamp demoBlock.timestamp demoSchedule).map Prod.fst ≠
      some demoBlock.producer) ∧
    ∃ st', handleBlock demoState demoBlock = .ok st' ∧
      st'.current_block.last_block_num = demoBlock.block_num ∧
      (dictGet st'.current_block.producers demoBlock.producer).isSome = true := by
  have hmmatch : (_block_producer_for_timestamp demoBlock.timestamp demoSchedule).map
      Prod.fst ≠ some demoBlock.producer := by
    norm_num [_block_producer_for_timestamp, _timestamp_to_slot, pyInt, demoBlock,
      demoSchedule, (show ((2 : ℤ)).toNat = 2 from rfl), List.getElem?_cons_zero,
      List.getElem?_cons_succ]
    decide
  exact ⟨rfl, by decide, by decide, hmmatch,
    handle_block_ignores_expected_producer demoState demoBlock demoSchedule rfl
      (by decide) (by decide) hmmatch⟩

end BPPerf
